import Mathlib

/-!
Verification of the KubeCon schedule pipeline (ICS parsing and document
formatting).  The definitions below are a shallow embedding of
`src/sched/parse_schedule.py` and `src/sched/format_schedule.py`: Python
strings are modelled as Lean `String` (lists of characters), Python string
primitives (`strip`, `split`, `join`, `lower`, `in`, `int(...)`) are modelled
by the `py*` functions, and code that can raise an uncaught exception is
modelled in `Option`, with `none` standing for the exception.
-/

namespace Sched

/-- The ASCII whitespace characters stripped by Python `str.strip()` (the
strings this pipeline handles are ASCII, where Python and this model agree). -/
def isPySpace (c : Char) : Bool :=
  c = ' ' || c = '\t' || c = '\n' || c = '\r' || c = '\x0b' || c = '\x0c'

/-- Remove trailing whitespace characters. -/
def dropTrailing : List Char → List Char
  | [] => []
  | c :: rest =>
    let r := dropTrailing rest
    if r = [] && isPySpace c then [] else c :: r

/-- Python `str.strip()` on the character list. -/
def pyStripL (l : List Char) : List Char :=
  dropTrailing (l.dropWhile isPySpace)

/-- Python `str.strip()`. -/
def pyStrip (s : String) : String := ⟨pyStripL s.data⟩

/-- Python `str.split(sep)` for a non-empty separator, on character lists:
splits on every non-overlapping occurrence of `sep`, scanning left to right.
The `fuel` argument only makes the recursion structural; every call
supplies at least the list's length, which the recursion never exhausts. -/
def splitSubF : Nat → List Char → List Char → List (List Char)
  | _, l, [] => [l]
  | 0, l, _ :: _ => [l]
  | fuel + 1, l, s :: ss =>
    match l with
    | [] => [[]]
    | c :: rest =>
      if (s :: ss).isPrefixOf (c :: rest) then
        [] :: splitSubF fuel ((c :: rest).drop (s :: ss).length) (s :: ss)
      else
        match splitSubF fuel rest (s :: ss) with
        | [] => [[c]]
        | h :: t => (c :: h) :: t

/-- Python `str.split(sep)` on character lists.
`splitSub [] sep = [[]]`, matching Python's `"".split(sep) == [""]`. -/
def splitSub (l sep : List Char) : List (List Char) :=
  splitSubF (l.length + 1) l sep

/-- Python `sep.join(pieces)` on character lists. -/
def joinSep (sep : List Char) : List (List Char) → List Char
  | [] => []
  | [x] => x
  | x :: y :: rest => x ++ sep ++ joinSep sep (y :: rest)

/-- Python `s.split(sep)`. -/
def pySplit (s sep : String) : List String :=
  (splitSub s.data sep.data).map (fun l => ⟨l⟩)

/-- Python `sub in s` (substring containment). -/
def pyIn (sub s : String) : Bool := (splitSub s.data sub.data).length != 1

/-- Python `s.split(sep, 1)`: the text before the first occurrence of `sep`
and the text after it (the second component is `""` if `sep` is absent). -/
def pySplit1 (s sep : String) : String × String :=
  match splitSub s.data sep.data with
  | [] => (s, "")
  | [x] => (⟨x⟩, "")
  | x :: rest => (⟨x⟩, ⟨joinSep sep.data rest⟩)

/-- Python `sep.join(xs)`. -/
def pyJoin (sep : String) (xs : List String) : String :=
  ⟨joinSep sep.data (xs.map String.data)⟩

/-- Python `s.startswith(pre)`. -/
def pyStartsWith (s pre : String) : Bool := pre.data.isPrefixOf s.data

/-- Python `s[n:]` (by code point). -/
def pyDrop (s : String) (n : Nat) : String := ⟨s.data.drop n⟩

/-- Python `str.lower()` on an ASCII character (`A`-`Z` map to `a`-`z`,
everything else is fixed; the pipeline only lower-cases ASCII text). -/
def lowerChar (c : Char) : Char :=
  if 65 ≤ c.toNat && c.toNat ≤ 90 then Char.ofNat (c.toNat + 32) else c

/-- Python `str.lower()` (ASCII model). -/
def pyLower (s : String) : String := ⟨s.data.map lowerChar⟩

/-- Model of Python `int(str)` restricted to ASCII literals: strip
whitespace, optional sign, then a non-empty run of decimal digits; `none` is
the `ValueError` raised on anything else.  (Python additionally accepts
underscore grouping and non-ASCII digits; the theorems below use this
function only on inputs where the two agree.) -/
def pyInt (s : String) : Option Int :=
  let t := pyStripL s.data
  let signDigits : Int × List Char :=
    match t with
    | '+' :: rest => (1, rest)
    | '-' :: rest => (-1, rest)
    | rest => (1, rest)
  let ds := signDigits.2
  if ds.isEmpty then none
  else if ds.all Char.isDigit then
    some (signDigits.1 * (ds.foldl (fun a c => a * 10 + ((c.toNat : Int) - 48)) 0))
  else none

/-! ## `format_schedule.py`: constants and data classes -/

/-- `COMPANY_SUFFIXES` from `format_schedule.py`. -/
def COMPANY_SUFFIXES : List String :=
  ["Inc.", "Inc", "LLC", "LLC.", "Ltd", "Ltd.", "Corp", "Corp.", "Co.", "Co",
   "LP", "LP.", "LLP", "LLP.", "PLC", "PLC."]

/-- `EXCLUDED_CATEGORIES` from `format_schedule.py`. -/
def EXCLUDED_CATEGORIES : List String :=
  ["REGISTRATION", "CNCF-HOSTED CO-LOCATED EVENTS",
   "SPONSOR-HOSTED CO-LOCATED EVENT", "PROJECT OPPORTUNITIES"]

/-- The `Location` dataclass: fields start as Python `None` (`none`) and are
assigned strings by `parse_location`. -/
structure Location where
  building : Option String := none
  level : Option String := none
  room : Option String := none
deriving DecidableEq, Repr

/-- The `Speaker` dataclass. -/
structure Speaker where
  name : String
  title : Option String := none
  company : Option String := none
deriving DecidableEq, Repr

/-- Python truthiness of an optional string (`None` and `""` are falsy). -/
def pyTruthy : Option String → Bool
  | none => false
  | some s => s ≠ ""

/-- `Speaker.to_text`. -/
def speakerToText (s : Speaker) : String :=
  pyJoin " " ([s.name] ++
    (if pyTruthy s.title then [s.title.getD ""] else []) ++
    (if pyTruthy s.company then ["from " ++ s.company.getD ""] else []))

/-- `Location.to_text`. -/
def locationToText (l : Location) : String :=
  pyJoin " | "
    ((if pyTruthy l.building then ["Building " ++ l.building.getD ""] else []) ++
     (if pyTruthy l.level then ["Level " ++ l.level.getD ""] else []) ++
     (if pyTruthy l.room then [l.room.getD ""] else []))

/-! ## `to_ascii` -/

/-- Model of the per-character NFKD decomposition used by
`unicodedata.normalize("NFKD", ...)`.  No ASCII character has a
decomposition, so on ASCII the map is the identity (the fact every theorem
below relies on).  Non-ASCII characters evaluated in this development
(`×`, which has no decomposition) are mapped correctly; a few sample
decompositions are included, and remaining non-ASCII characters default to
themselves. -/
def nfkdChar (c : Char) : List Char :=
  if c.toNat < 128 then [c]
  else if c = 'é' then ['e', Char.ofNat 769]
  else if c = 'ü' then ['u', Char.ofNat 776]
  else [c]

/-- `to_ascii`: NFKD-normalize, then `encode("ascii", "ignore")`, i.e. drop
every character outside the 7-bit range. -/
def to_ascii (text : String) : String :=
  if text = "" then ""
  else ⟨((text.data.map nfkdChar).flatten).filter (fun c => c.toNat < 128)⟩

/-! ## `parse_location` -/

/-- `re.split(r",\s*Atlanta", location)[0]`: the prefix of the string before
the first occurrence of a comma followed by optional whitespace and
`Atlanta`. -/
def cityCut : List Char → List Char
  | [] => []
  | c :: rest =>
    if c = ',' && "Atlanta".data.isPrefixOf (rest.dropWhile isPySpace) then []
    else c :: cityCut rest

/-- The body of `parse_location`'s segment loop: case-insensitive prefix
dispatch assigning `building`, `level` or `room`. -/
def locAssign (loc : Location) (part : String) : Location :=
  if pyStartsWith (pyLower part) "building " then
    { loc with building := some (pyStrip (pyDrop part 9)) }
  else if pyStartsWith (pyLower part) "level " then
    { loc with level := some (pyStrip (pyDrop part 6)) }
  else if part ≠ "" then { loc with room := some part }
  else loc

/-- `parse_location` from `format_schedule.py`. -/
def parse_location (location : String) : Option Location :=
  if location = "" then none
  else
    let base := pyStrip ⟨cityCut location.data⟩
    let parts := (pySplit base "|").map pyStrip
    let loc := parts.foldl locAssign {}
    if pyTruthy loc.building || pyTruthy loc.level || pyTruthy loc.room then some loc
    else none

/-! ## Speaker extraction -/

/-- `normalize_company_name` from `format_schedule.py`. -/
def normalize_company_name (parts : List String) (start_idx : Nat) : String :=
  if parts.length ≤ start_idx then ""
  else
    let company_parts := parts.drop start_idx
    if 2 ≤ company_parts.length &&
        COMPANY_SUFFIXES.contains (company_parts.getLast?.getD "") then
      (company_parts.dropLast.getLast?.getD "") ++ ", " ++
        (company_parts.getLast?.getD "")
    else company_parts.getLast?.getD ""

/-- `parse_speaker_entry` from `format_schedule.py`. -/
def parse_speaker_entry (entry : String) : Option Speaker :=
  let e := pyStrip entry
  if e = "" then none
  else if !(pyIn "," e) then some { name := e }
  else
    let parts := (pySplit e ",").map pyStrip
    if parts.length = 2 then
      some { name := parts.headD "", company := some (parts.getLast?.getD "") }
    else if COMPANY_SUFFIXES.contains (parts.getLast?.getD "") then
      some { name := parts.headD "",
             title := if 3 < parts.length then
                 some (pyJoin ", " ((parts.drop 1).dropLast.dropLast))
               else none,
             company := some ((parts.dropLast.getLast?.getD "") ++ ", " ++
               (parts.getLast?.getD "")) }
    else
      some { name := parts.headD "",
             title := if 2 < parts.length then
                 some (pyJoin ", " ((parts.drop 1).dropLast))
               else none,
             company := some (parts.getLast?.getD "") }

/-- `_parse_speaker_group` from `format_schedule.py`. -/
def _parse_speaker_group (group : String) : List Speaker :=
  let entries := (pySplit group " & ").map pyStrip
  if 1 < entries.length &&
      pyIn "," (entries.getLast?.getD "") &&
      !(entries.dropLast.any (fun e => pyIn "," e)) then
    let lastParts := pySplit (entries.getLast?.getD "") ","
    let company := normalize_company_name lastParts 1
    let names := entries.dropLast ++ [pyStrip (lastParts.headD "")]
    names.map (fun n => { name := n, company := some company })
  else
    (entries.map parse_speaker_entry).reduceOption

/-- `extract_speakers` from `format_schedule.py`. -/
def extract_speakers (summary : String) : List Speaker :=
  if summary = "" || !(pyIn " - " summary) then []
  else
    let speaker_section := pyStrip (pySplit1 summary " - ").2
    if pyIn ";" speaker_section then
      ((pySplit speaker_section ";").map
        (fun g => _parse_speaker_group (pyStrip g))).flatten
    else _parse_speaker_group speaker_section

/-! ## `parse_ics_datetime`

`datetime.strptime(dt_string, "%Y%m%dT%H%M%SZ")` compiles the format to the
anchored, case-insensitive regular expression
`(\d\d\d\d)(1[0-2]|0[1-9]|[1-9])(3[01]|[12]\d|0[1-9]|[1-9])T(2[0-3]|[0-1]\d|\d)([0-5]\d|\d)(6[0-1]|[0-5]\d|\d)Z`
which must consume the whole string; alternatives are tried in order with
backtracking.  A successful match then constructs a `datetime`, which
re-checks calendar validity (this is where `Feb 30` or second `60` raise the
`ValueError` the caller catches).  The functions below model exactly that. -/

/-- Decimal value of an ASCII digit. -/
def dv (c : Char) : Nat := c.toNat - 48

/-- Candidates (in regex alternation order) for `%m`: `1[0-2]|0[1-9]|[1-9]`. -/
def monthCands : List Char → List (Nat × List Char)
  | a :: b :: rest =>
    (if a = '1' && '0' ≤ b && b ≤ '2' then [(10 + dv b, rest)] else []) ++
    (if a = '0' && '1' ≤ b && b ≤ '9' then [(dv b, rest)] else []) ++
    (if '1' ≤ a && a ≤ '9' then [(dv a, b :: rest)] else [])
  | [a] => if '1' ≤ a && a ≤ '9' then [(dv a, [])] else []
  | [] => []

/-- Candidates for `%d`: `3[01]|[12]\d|0[1-9]|[1-9]`. -/
def dayCands : List Char → List (Nat × List Char)
  | a :: b :: rest =>
    (if a = '3' && ('0' ≤ b && b ≤ '1') then [(30 + dv b, rest)] else []) ++
    (if ('1' ≤ a && a ≤ '2') && b.isDigit then [(dv a * 10 + dv b, rest)] else []) ++
    (if a = '0' && '1' ≤ b && b ≤ '9' then [(dv b, rest)] else []) ++
    (if '1' ≤ a && a ≤ '9' then [(dv a, b :: rest)] else [])
  | [a] => if '1' ≤ a && a ≤ '9' then [(dv a, [])] else []
  | [] => []

/-- Candidates for `%H`: `2[0-3]|[0-1]\d|\d`. -/
def hourCands : List Char → List (Nat × List Char)
  | a :: b :: rest =>
    (if a = '2' && ('0' ≤ b && b ≤ '3') then [(20 + dv b, rest)] else []) ++
    (if ('0' ≤ a && a ≤ '1') && b.isDigit then [(dv a * 10 + dv b, rest)] else []) ++
    (if a.isDigit then [(dv a, b :: rest)] else [])
  | [a] => if a.isDigit then [(dv a, [])] else []
  | [] => []

/-- Candidates for `%M`: `[0-5]\d|\d`. -/
def minCands : List Char → List (Nat × List Char)
  | a :: b :: rest =>
    (if ('0' ≤ a && a ≤ '5') && b.isDigit then [(dv a * 10 + dv b, rest)] else []) ++
    (if a.isDigit then [(dv a, b :: rest)] else [])
  | [a] => if a.isDigit then [(dv a, [])] else []
  | [] => []

/-- Candidates for `%S`: `6[0-1]|[0-5]\d|\d`. -/
def secCands : List Char → List (Nat × List Char)
  | a :: b :: rest =>
    (if a = '6' && ('0' ≤ b && b ≤ '1') then [(60 + dv b, rest)] else []) ++
    (if ('0' ≤ a && a ≤ '5') && b.isDigit then [(dv a * 10 + dv b, rest)] else []) ++
    (if a.isDigit then [(dv a, b :: rest)] else [])
  | [a] => if a.isDigit then [(dv a, [])] else []
  | [] => []

/-- A parsed broken-down timestamp. -/
structure DT where
  y : Nat
  m : Nat
  d : Nat
  hh : Nat
  mi : Nat
  ss : Nat
deriving DecidableEq, Repr

/-- The regular-expression phase of
`strptime(dt_string, "%Y%m%dT%H%M%SZ")`: first full match in backtracking
order, `none` when the string does not match (including trailing
unconverted data). -/
def matchFormatICS (s : String) : Option DT :=
  match s.data with
  | y1 :: y2 :: y3 :: y4 :: rest =>
    if y1.isDigit && y2.isDigit && y3.isDigit && y4.isDigit then
      let y := ((dv y1 * 10 + dv y2) * 10 + dv y3) * 10 + dv y4
      (monthCands rest).findSome? fun mc =>
        (dayCands mc.2).findSome? fun dc =>
          match dc.2 with
          | t :: r3 =>
            if t = 'T' || t = 't' then
              (hourCands r3).findSome? fun hc =>
                (minCands hc.2).findSome? fun nc =>
                  (secCands nc.2).findSome? fun sc =>
                    match sc.2 with
                    | [z] =>
                      if z = 'Z' || z = 'z' then
                        some ⟨y, mc.1, dc.1, hc.1, nc.1, sc.1⟩
                      else none
                    | _ => none
            else none
          | [] => none
    else none
  | _ => none

/-- Leap-year test (proleptic Gregorian, as `datetime` uses). -/
def isLeap (y : Nat) : Bool := y % 4 = 0 && (y % 100 ≠ 0 || y % 400 = 0)

/-- Days in a month. -/
def daysInMonth (y m : Nat) : Nat :=
  if m = 2 then (if isLeap y then 29 else 28)
  else if m = 4 || m = 6 || m = 9 || m = 11 then 30
  else 31

/-- The validity check performed by the `datetime` constructor; a failure
raises the `ValueError` that `parse_ics_datetime` catches. -/
def validDT (dt : DT) : Bool :=
  1 ≤ dt.y && dt.y ≤ 9999 && 1 ≤ dt.m && dt.m ≤ 12 &&
  1 ≤ dt.d && dt.d ≤ daysInMonth dt.y dt.m &&
  dt.hh ≤ 23 && dt.mi ≤ 59 && dt.ss ≤ 59

/-- Days from civil date to 1970-01-01 (Gregorian), the standard
`days_from_civil` algorithm. -/
def daysFromCivil (y m d : Int) : Int :=
  let yy := if m ≤ 2 then y - 1 else y
  let era := yy / 400
  let yoe := yy - era * 400
  let mp := (m + 9) % 12
  let doy := (153 * mp + 2) / 5 + d - 1
  let doe := yoe * 365 + yoe / 4 - yoe / 100 + doy
  era * 146097 + doe - 719468

/-- Civil date from days since 1970-01-01, inverse of `daysFromCivil`. -/
def civilFromDays (z0 : Int) : Int × Int × Int :=
  let z := z0 + 719468
  let era := z / 146097
  let doe := z - era * 146097
  let yoe := (doe - doe / 1460 + doe / 36524 - doe / 146096) / 365
  let yy := yoe + era * 400
  let doy := doe - (365 * yoe + yoe / 4 - yoe / 100)
  let mp := (5 * doy + 2) / 153
  let dd := doy - (153 * mp + 2) / 5 + 1
  let mm := mp + (if mp < 10 then 3 else -9)
  (yy + (if mm ≤ 2 then 1 else 0), mm, dd)

/-- Seconds since the epoch of a broken-down UTC timestamp. -/
def toSecs (dt : DT) : Int :=
  daysFromCivil dt.y dt.m dt.d * 86400 +
    (dt.hh : Int) * 3600 + (dt.mi : Int) * 60 + (dt.ss : Int)

/-- Day of week of a civil date, `0` = Sunday. -/
def dow (y m d : Int) : Int := (daysFromCivil y m d + 4) % 7

/-- Day of month of the second Sunday of March. -/
def secondSundayMarch (y : Int) : Int := 8 + (7 - dow y 3 8) % 7

/-- Day of month of the first Sunday of November. -/
def firstSundayNov (y : Int) : Int := 1 + (7 - dow y 11 1) % 7

/-- Model of `ZoneInfo("America/New_York")`: the UTC offset, in seconds, in
force at the UTC instant `t`, under the post-2007 United States DST rule
(in force for every timestamp in this calendar): daylight time from the
second Sunday of March 07:00 UTC to the first Sunday of November 06:00 UTC,
offset `-4` hours, and `-5` hours otherwise. -/
def easternOffset (t : Int) : Int :=
  let y := (civilFromDays (t / 86400)).1
  let dstStart := daysFromCivil y 3 (secondSundayMarch y) * 86400 + 7 * 3600
  let dstEnd := daysFromCivil y 11 (firstSundayNov y) * 86400 + 6 * 3600
  if dstStart ≤ t && t < dstEnd then -14400 else -18000

/-- Zero-pad to two digits. -/
def pad2 (n : Int) : String := (if n < 10 then "0" else "") ++ toString n

/-- Zero-pad to four digits. -/
def pad4 (n : Int) : String :=
  (if n < 10 then "000" else if n < 100 then "00" else if n < 1000 then "0"
   else "") ++ toString n

/-- `datetime.isoformat()` of the local timestamp `loc` (seconds since the
epoch, local clock) carrying the UTC offset `off` (seconds). -/
def isoRender (loc off : Int) : String :=
  let days := loc / 86400
  let rem := loc % 86400
  let c := civilFromDays days
  pad4 c.1 ++ "-" ++ pad2 c.2.1 ++ "-" ++ pad2 c.2.2 ++ "T" ++
    pad2 (rem / 3600) ++ ":" ++ pad2 (rem / 60 % 60) ++
    ":" ++ pad2 (rem % 60) ++
    (if off = -14400 then "-04:00" else "-05:00")

/-- The epoch-seconds value of the minimum representable `datetime`,
`0001-01-01T00:00:00`. -/
def minDatetimeSecs : Int := toSecs ⟨1, 1, 1, 0, 0, 0⟩

/-- `parse_ics_datetime` from `parse_schedule.py`.  The result is `none`
when the function raises: `astimezone` overflows (`OverflowError`, which the
`except ValueError` handler does not catch) when subtracting the Eastern
offset lands before the minimum representable datetime.  `ValueError` from
`strptime`/`datetime` is caught and degrades to the raw string. -/
def parse_ics_datetime (s : String) : Option String :=
  if s = "" then some ""
  else
    match matchFormatICS s with
    | none => some s
    | some dt =>
      if validDT dt then
        let t := toSecs dt
        let off := easternOffset t
        let loc := t + off
        if loc < minDatetimeSecs then none
        else some (isoRender loc off)
      else some s

/-! ## `parse_ics_to_json` (`parse_schedule.py`) -/

/-- Python `str.replace` (all non-overlapping occurrences, left to right)
for a non-empty pattern; the `fuel` argument only makes the recursion
structural, as in `splitSubF`. -/
def replaceSubF : Nat → List Char → List Char → List Char → List Char
  | _, l, [], _ => l
  | 0, l, _ :: _, _ => l
  | fuel + 1, l, p :: ps, rep =>
    match l with
    | [] => []
    | c :: rest =>
      if (p :: ps).isPrefixOf (c :: rest) then
        rep ++ replaceSubF fuel ((c :: rest).drop (p :: ps).length) (p :: ps) rep
      else c :: replaceSubF fuel rest (p :: ps) rep

/-- Python `s.replace(pat, rep)`. -/
def pyReplace (s pat rep : String) : String :=
  ⟨replaceSubF (s.data.length + 1) s.data pat.data rep.data⟩

/-- `unescape_ics_text` from `parse_schedule.py`. -/
def unescape_ics_text (text : String) : String :=
  if text = "" then ""
  else pyStrip (pyReplace (pyReplace (pyReplace (pyReplace text "\\," ",")
    "\\;" ";") "\\n" "\n") "\\\\" "\\")

/-- An event record, with the defaults `BEGIN:VEVENT` installs. -/
structure Event where
  uid : String := ""
  dtstamp : String := ""
  dtstart : String := ""
  dtend : String := ""
  summary : String := ""
  description : String := ""
  categories : List String := []
  location : String := ""
  sequence : Int := 0
  url : String := ""
deriving DecidableEq, Repr

/-- The value of the tokenizer's `current_field` variable. -/
inductive FieldKey where
  | uid | dtstamp | dtstart | dtend | summary | description
  | categories | location | sequence | url
deriving DecidableEq, Repr

/-- Calendar metadata (each key written on sight, last write wins). -/
structure CalMeta where
  version : Option String := none
  name : Option String := none
  description : Option String := none
  method : Option String := none
  calscale : Option String := none
  prodid : Option String := none
  timezone : Option String := none
deriving DecidableEq, Repr

/-- The tokenizer's loop state. -/
structure ParseState where
  meta : CalMeta := {}
  events : List Event := []
  current : Option Event := none
  field : Option FieldKey := none
deriving DecidableEq, Repr

/-- `END:VEVENT` cleanup: unescape the three text fields. -/
def finalizeEvent (ev : Event) : Event :=
  { ev with description := unescape_ics_text ev.description,
            summary := unescape_ics_text ev.summary,
            location := unescape_ics_text ev.location }

/-- `current_event[current_field] += line[1:]`, the continuation-line
append.  (Unreachable in practice: the line was already stripped.)  For the
string fields this is string concatenation; for `categories` Python's
`list += str` extends the list with the string's characters; for
`sequence` (an `int`) the `+=` raises an uncaught `TypeError`, modelled as
`none`. -/
def appendField (ev : Event) (k : FieldKey) (t : String) : Option Event :=
  match k with
  | .uid => some { ev with uid := ev.uid ++ t }
  | .dtstamp => some { ev with dtstamp := ev.dtstamp ++ t }
  | .dtstart => some { ev with dtstart := ev.dtstart ++ t }
  | .dtend => some { ev with dtend := ev.dtend ++ t }
  | .summary => some { ev with summary := ev.summary ++ t }
  | .description => some { ev with description := ev.description ++ t }
  | .categories =>
      some { ev with categories := ev.categories ++ t.data.map (fun c => ⟨[c]⟩) }
  | .location => some { ev with location := ev.location ++ t }
  | .sequence => none
  | .url => some { ev with url := ev.url ++ t }

/-- The `FIELD:value` dispatch inside an event block.  `none` models the
uncaught `ValueError` of `int(value)` on a malformed `SEQUENCE`, and the
uncaught exception `parse_ics_datetime` can raise (see there).  An
unrecognized field name leaves the state unchanged. -/
def setEventField (st : ParseState) (ev : Event) (field value : String) :
    Option ParseState :=
  if field = "UID" then
    some { st with current := some { ev with uid := value }, field := some .uid }
  else if field = "DTSTAMP" then
    (parse_ics_datetime value).map fun v =>
      { st with current := some { ev with dtstamp := v }, field := some .dtstamp }
  else if field = "DTSTART" then
    (parse_ics_datetime value).map fun v =>
      { st with current := some { ev with dtstart := v }, field := some .dtstart }
  else if field = "DTEND" then
    (parse_ics_datetime value).map fun v =>
      { st with current := some { ev with dtend := v }, field := some .dtend }
  else if field = "SUMMARY" then
    some { st with current := some { ev with summary := value },
                   field := some .summary }
  else if field = "DESCRIPTION" then
    some { st with current := some { ev with description := value },
                   field := some .description }
  else if field = "CATEGORIES" then
    let cats := (pySplit value ",").map pyStrip
    some { st with current := some { ev with categories := cats },
                   field := some .categories }
  else if field = "LOCATION" then
    some { st with current := some { ev with location := value },
                   field := some .location }
  else if field = "SEQUENCE" then
    (pyInt value).map fun n =>
      { st with current := some { ev with sequence := n }, field := some .sequence }
  else if field = "URL" then
    some { st with current := some { ev with url := value }, field := some .url }
  else some st

/-- The dispatch of one already-stripped line, with the branch structure of
the source: skip empty, the calendar metadata prefixes, the block markers,
then (inside an event) the continuation check followed by the `FIELD:value`
dispatch. -/
def stepStripped (st : ParseState) (line : String) : Option ParseState :=
  if line = "" then some st
  else if pyStartsWith line "VERSION:" then
    some { st with meta := { st.meta with version := some (pySplit1 line ":").2 } }
  else if pyStartsWith line "X-WR-CALNAME:" then
    some { st with meta := { st.meta with name := some (pySplit1 line ":").2 } }
  else if pyStartsWith line "X-WR-CALDESC:" then
    some { st with meta := { st.meta with description := some (pySplit1 line ":").2 } }
  else if pyStartsWith line "METHOD:" then
    some { st with meta := { st.meta with method := some (pySplit1 line ":").2 } }
  else if pyStartsWith line "CALSCALE:" then
    some { st with meta := { st.meta with calscale := some (pySplit1 line ":").2 } }
  else if pyStartsWith line "PRODID:" then
    some { st with meta := { st.meta with prodid := some (pySplit1 line ":").2 } }
  else if pyStartsWith line "X-WR-TIMEZONE:" then
    some { st with meta := { st.meta with timezone := some (pySplit1 line ":").2 } }
  else if line = "BEGIN:VEVENT" then
    some { st with current := some {}, field := none }
  else if line = "END:VEVENT" && st.current.isSome then
    match st.current with
    | some ev => some { st with events := st.events ++ [finalizeEvent ev],
                                current := none, field := none }
    | none => some st
  else
    match st.current with
    | none => some st
    | some ev =>
      if pyStartsWith line " " && st.field.isSome then
        match st.field with
        | some k => (appendField ev k (pyDrop line 1)).map
            fun e2 => { st with current := some e2 }
        | none => some st
      else if pyIn ":" line then
        setEventField st ev (pySplit1 line ":").1 (pySplit1 line ":").2
      else some st

/-- One iteration of the `for line in lines` loop of `parse_ics_to_json`:
`line = line.strip()`, then the dispatch. -/
def stepLine (st : ParseState) (rawLine : String) : Option ParseState :=
  stepStripped st (pyStrip rawLine)

/-- The parsed calendar structure. -/
structure Calendar where
  meta : CalMeta
  events : List Event
deriving DecidableEq, Repr

/-- `parse_ics_to_json` from `parse_schedule.py`: split on newlines and fold
the tokenizer; `none` models an uncaught exception. -/
def parse_ics_to_json (ics_content : String) : Option Calendar :=
  ((pySplit ics_content "\n").foldlM stepLine {}).map
    fun st => ⟨st.meta, st.events⟩

/-! ## Document formatting (`format_schedule.py`) -/

/-- A document's metadata dict.  `location` and `speakers` are optional:
`none` models the key being absent.  `endTime` carries the source's `"end"`
key (`end` is reserved in Lean). -/
structure DocMeta where
  title : String
  description : String
  url : String
  uid : String
  start : String
  endTime : String
  categories : List String
  location : Option Location := none
  speakers : Option (List Speaker) := none
deriving DecidableEq, Repr

/-- A formatted document. -/
structure Document where
  text : String
  metadata : DocMeta
deriving DecidableEq, Repr

/-- `format_event_to_document` from `format_schedule.py`. -/
def format_event_to_document (event : Event) : Document :=
  let summary := to_ascii event.summary
  let title := if pyIn " - " summary then pyStrip ((pySplit summary " - ").headD "")
               else summary
  let description := to_ascii event.description
  let speakers := extract_speakers summary
  let location := parse_location event.location
  let categories := event.categories.map to_ascii
  let metadata : DocMeta :=
    { title := title, description := description, url := event.url,
      uid := event.uid, start := event.dtstart, endTime := event.dtend,
      categories := categories, location := location,
      speakers := if speakers.isEmpty then none else some speakers }
  let textParts :=
    (if description ≠ "" then [description] else []) ++
    (if !speakers.isEmpty then
       ["Speakers: " ++ pyJoin ", " (speakers.map speakerToText) ++ "."] else []) ++
    (match location with
     | some l => ["Location: " ++ locationToText l ++ "."]
     | none => []) ++
    (if !categories.isEmpty then
       ["Categories: " ++ pyJoin ", " categories ++ "."] else [])
  { text := pyJoin " " textParts, metadata := metadata }

/-- The output structure of `format_schedule_for_indexing`. -/
structure IndexOutput where
  index_name : String
  documents : List Document
deriving DecidableEq, Repr

/-- The core of `format_schedule_for_indexing` (the file I/O around it is
out of scope): drop events whose categories meet `EXCLUDED_CATEGORIES`, then
format each remaining event. -/
def format_schedule_for_indexing (events : List Event) (index_name : String) :
    IndexOutput :=
  let session_events := events.filter
    (fun e => !(e.categories.any (fun c => EXCLUDED_CATEGORIES.contains c)))
  { index_name := index_name,
    documents := session_events.map format_event_to_document }

/-! ## Claim-side definitions

These definitions follow the words of the specification (not the source);
they exist to be compared with the source-derived functions above. -/

/-- The claim's city cut, read literally: strip everything from the first
occurrence of the literal token `", Atlanta"` onward. -/
def cityCutLiteral : List Char → List Char
  | [] => []
  | c :: rest =>
    if c = ',' && " Atlanta".data.isPrefixOf rest then []
    else c :: cityCutLiteral rest

/-- `parse_location` as the claim words it, with the literal `", Atlanta"`
token: cut at the token, split on `|`, trim, assign by prefix, and return
`None` exactly when none of the three fields were set. -/
def parse_location_claimed (location : String) : Option Location :=
  let base := pyStrip ⟨cityCutLiteral location.data⟩
  let parts := (pySplit base "|").map pyStrip
  let loc := parts.foldl locAssign {}
  if loc.building = none ∧ loc.level = none ∧ loc.room = none then none
  else some loc

/-- Does the venue-city token (a comma, optional whitespace, then
`Atlanta`) occur at position `i` of `l`? -/
def cityTokenAt (l : List Char) (i : Nat) : Bool :=
  match l.drop i with
  | c :: rest => c = ',' && "Atlanta".data.isPrefixOf (rest.dropWhile isPySpace)
  | [] => false

/-- Position of the first occurrence of the venue-city token. -/
def firstCityIdx (l : List Char) : Option Nat :=
  (List.range l.length).find? (cityTokenAt l)

/-- The amended claim's city cut: everything from the first occurrence of
the venue-city token onward is stripped, keeping the prefix before it. -/
def cityStripSpec (l : List Char) : List Char :=
  match firstCityIdx l with
  | some i => l.take i
  | none => l

/-- `parse_location` as the amended claim words it: strip from the first
occurrence of the venue-city token (comma, optional whitespace, `Atlanta`),
split the remainder on `|`, trim each segment, assign segments
case-insensitively by prefix, and return `None` exactly when none of the
three fields were set. -/
def parse_location_spec (location : String) : Option Location :=
  let base := pyStrip ⟨cityStripSpec location.data⟩
  let parts := (pySplit base "|").map pyStrip
  let loc := parts.foldl locAssign {}
  if loc.building = none ∧ loc.level = none ∧ loc.room = none then none
  else some loc

/-- A line is exception-safe for the tokenizer when, if its text before the
first colon is `SEQUENCE`, the value is an integer literal, and if it is a
datetime field, the value does not hit the `astimezone` overflow corner. -/
def lineSafe (rawLine : String) : Bool :=
  let line := pyStrip rawLine
  let fv := pySplit1 line ":"
  (if fv.1 = "SEQUENCE" then (pyInt fv.2).isSome else true) &&
  (if fv.1 = "DTSTAMP" || fv.1 = "DTSTART" || fv.1 = "DTEND" then
     (parse_ics_datetime fv.2).isSome else true)

/-! ## Helper lemmas on the string primitives -/

theorem dropWhile_head_not (p : Char → Bool) (l : List Char) (c : Char)
    (t : List Char) (h : l.dropWhile p = c :: t) : p c = false := by
  induction l with
  | nil => simp at h
  | cons a as ih =>
    by_cases hp : p a = true
    · rw [List.dropWhile_cons_of_pos hp] at h
      exact ih h
    · rw [List.dropWhile_cons_of_neg hp] at h
      cases h
      simpa using hp

theorem dropTrailing_head (c : Char) (rest : List Char) :
    dropTrailing (c :: rest) = [] ∨ ∃ t, dropTrailing (c :: rest) = c :: t := by
  simp only [dropTrailing]
  split
  · exact Or.inl rfl
  · exact Or.inr ⟨_, rfl⟩

theorem pyStrip_head_not_space (s : String) (c : Char) (t : List Char)
    (h : (pyStrip s).data = c :: t) : isPySpace c = false := by
  have h2 : pyStripL s.data = c :: t := h
  unfold pyStripL at h2
  cases hd : s.data.dropWhile isPySpace with
  | nil => rw [hd] at h2; simp [dropTrailing] at h2
  | cons a as =>
    have ha : isPySpace a = false := dropWhile_head_not _ _ _ _ hd
    rw [hd] at h2
    rcases dropTrailing_head a as with he | ⟨t2, he⟩
    · rw [he] at h2; cases h2
    · rw [he] at h2
      cases h2
      exact ha

/-- The stripped line never begins with a space: the tokenizer's
continuation branch is unreachable. -/
theorem pyStrip_not_startsWith_space (s : String) :
    pyStartsWith (pyStrip s) " " = false := by
  show [' '].isPrefixOf (pyStrip s).data = false
  cases hd : (pyStrip s).data with
  | nil => rfl
  | cons c t =>
    have hc := pyStrip_head_not_space s c t hd
    have hcs : (' ' == c) = false := by
      cases hsp : (' ' == c)
      · rfl
      · exfalso
        have : ' ' = c := by simpa using hsp
        rw [← this] at hc
        simp [isPySpace] at hc
    simp [List.isPrefixOf, hcs]

/-! ## C9: idempotence of the ASCII normalizer -/

theorem nfkdChar_ascii {c : Char} (h : c.toNat < 128) : nfkdChar c = [c] := by
  simp [nfkdChar, h]

theorem to_ascii_mem_ascii (s : String) : ∀ c ∈ (to_ascii s).data, c.toNat < 128 := by
  unfold to_ascii
  split
  · intro c hc; simp at hc
  · intro c hc
    have := List.mem_filter.mp hc
    simpa using this.2

theorem ascii_fold_fix (l : List Char) (h : ∀ c ∈ l, c.toNat < 128) :
    ((l.map nfkdChar).flatten).filter (fun c => c.toNat < 128) = l := by
  induction l with
  | nil => rfl
  | cons a as ih =>
    have ha : a.toNat < 128 := h a (by simp)
    simp only [List.map_cons, List.flatten_cons, nfkdChar_ascii ha,
      List.singleton_append, List.filter_cons]
    rw [if_pos (by simpa using ha)]
    rw [ih (fun c hc => h c (by simp [hc]))]

theorem to_ascii_of_ascii (t : String) (h : ∀ c ∈ t.data, c.toNat < 128) :
    to_ascii t = t := by
  by_cases h0 : t = ""
  · rw [h0]; rfl
  · unfold to_ascii
    rw [if_neg h0, ascii_fold_fix t.data h]

/-- C9: the ASCII normalizer is idempotent: for every input string `s`,
`to_ascii (to_ascii s) = to_ascii s` — re-applying it to already-normalized
text is a no-op. -/
theorem to_ascii_idempotent (s : String) : to_ascii (to_ascii s) = to_ascii s :=
  to_ascii_of_ascii _ (to_ascii_mem_ascii s)

/-! ## C1: the shared-company example -/

set_option maxRecDepth 16384 in
/-- C1: evaluating the code on the claim's example.  The shared-company
heuristic fires, but the comma-split of the last entry is not trimmed, so
the suffix check inside `normalize_company_name` compares `" Inc."` (with
its leading space) against the suffix set, misses, and returns the bare
last part: both speakers get company `" Inc."`, not the claimed
`"Acme, Inc."`. -/
theorem extract_speakers_shared_company_untrimmed :
    extract_speakers "Panel - Jane Doe & John Smith, Acme, Inc." =
      [{ name := "Jane Doe", company := some " Inc." },
       { name := "John Smith", company := some " Inc." }] := by decide

/-! ## C2: continuation lines -/

set_option maxRecDepth 16384 in
/-- C2: evaluating the tokenizer on a folded `DESCRIPTION`.  Because each
line is stripped before the single-leading-space test, the continuation
branch can never fire and the folded text `" def"` is silently dropped: the
event's description stays `"abc"`, not the claimed `"abcdef"`.  The second
conjunct is the reason: a stripped line never begins with a space. -/
theorem continuation_lines_are_dropped :
    parse_ics_to_json "BEGIN:VEVENT\nDESCRIPTION:abc\n def\nEND:VEVENT" =
      some { meta := {}, events := [{ description := "abc" }] } ∧
    ∀ raw : String, pyStartsWith (pyStrip raw) " " = false :=
  ⟨by decide, pyStrip_not_startsWith_space⟩

/-! ## Lemmas about the split primitive -/

theorem splitSubF_ne_nil (fuel : Nat) (l sep : List Char) :
    splitSubF fuel l sep ≠ [] := by
  cases sep with
  | nil => simp [splitSubF]
  | cons s ss =>
    cases fuel with
    | zero => simp [splitSubF]
    | succ f =>
      cases l with
      | nil => simp [splitSubF]
      | cons c rest =>
        simp only [splitSubF]
        split
        · simp
        · split <;> simp

theorem splitSub_ne_nil (l sep : List Char) : splitSub l sep ≠ [] :=
  splitSubF_ne_nil _ l sep

theorem joinSep_splitSubF (fuel : Nat) :
    ∀ l sep : List Char, l.length ≤ fuel →
      joinSep sep (splitSubF fuel l sep) = l := by
  induction fuel with
  | zero =>
    intro l sep h
    have hl : l = [] := List.length_eq_zero.mp (Nat.le_zero.mp h)
    subst hl
    cases sep with
    | nil => rfl
    | cons s ss => rfl
  | succ f ih =>
    intro l sep h
    cases sep with
    | nil => rfl
    | cons s ss =>
      cases l with
      | nil => rfl
      | cons c rest =>
        simp only [splitSubF]
        split
        · rename_i hpre
          have hdrop : (s :: ss).length ≤ (c :: rest).length := by
            have := List.isPrefixOf_iff_prefix.mp hpre
            exact this.length_le
          have hlen : ((c :: rest).drop (s :: ss).length).length ≤ f := by
            simp only [List.length_drop]
            simp only [List.length_cons] at h ⊢
            omega
          cases hX : splitSubF f ((c :: rest).drop (s :: ss).length) (s :: ss) with
          | nil => exact absurd hX (splitSubF_ne_nil _ _ _)
          | cons x t =>
            show (s :: ss) ++ joinSep (s :: ss) (x :: t) = c :: rest
            rw [← hX, ih _ _ hlen]
            have hp := List.isPrefixOf_iff_prefix.mp hpre
            obtain ⟨tail, htail⟩ := hp
            rw [← htail, List.drop_left]
        · have hlen : rest.length ≤ f := by
            simp only [List.length_cons] at h; omega
          cases hX : splitSubF f rest (s :: ss) with
          | nil => exact absurd hX (splitSubF_ne_nil _ _ _)
          | cons x t =>
            have hjoin : joinSep (s :: ss) (x :: t) = rest := by
              rw [← hX, ih _ _ hlen]
            cases t with
            | nil =>
              show c :: x = c :: rest
              simp only [joinSep] at hjoin
              rw [hjoin]
            | cons y t2 =>
              show (c :: x) ++ (s :: ss) ++ joinSep (s :: ss) (y :: t2) = c :: rest
              simp only [joinSep] at hjoin
              simp only [List.cons_append]
              rw [← hjoin]

theorem joinSep_splitSub (l sep : List Char) :
    joinSep sep (splitSub l sep) = l :=
  joinSep_splitSubF _ l sep (Nat.le_succ _)

theorem splitSubF_cons_succ (f : Nat) (a c : Char) (rest : List Char) :
    splitSubF (f + 1) (a :: rest) [c] =
      if (c == a) = true then [] :: splitSubF f rest [c]
      else
        match splitSubF f rest [c] with
        | [] => [[a]]
        | x :: t => (a :: x) :: t := by
  simp only [splitSubF, List.isPrefixOf, Bool.and_true, List.length_cons,
    List.length_nil, List.length_singleton, List.drop_succ_cons, List.drop_zero]

theorem splitSub_cons (a c : Char) (l : List Char) :
    splitSub (a :: l) [c] =
      if (c == a) = true then [] :: splitSub l [c]
      else
        match splitSub l [c] with
        | [] => [[a]]
        | x :: t => (a :: x) :: t :=
  splitSubF_cons_succ (l.length + 1) a c l

theorem splitSub_cons_match (c : Char) (l : List Char) :
    splitSub (c :: l) [c] = [] :: splitSub l [c] := by
  rw [splitSub_cons, if_pos (by simp)]

theorem splitSub_cons_ne (a c : Char) (l : List Char) (h : (c == a) = false) :
    splitSub (a :: l) [c] =
      match splitSub l [c] with
      | [] => [[a]]
      | x :: t => (a :: x) :: t := by
  rw [splitSub_cons, if_neg (by simp [h])]

theorem splitSub_append_colon (pre tail : List Char) (c : Char)
    (h : ∀ a ∈ pre, (c == a) = false) :
    splitSub (pre ++ c :: tail) [c] = pre :: splitSub tail [c] := by
  induction pre with
  | nil => simpa using splitSub_cons_match c tail
  | cons a p ih =>
    have ha := h a (by simp)
    rw [List.cons_append, splitSub_cons_ne a c _ ha,
      ih (fun b hb => h b (by simp [hb]))]

/-! ## The tokenizer on a `CATEGORIES:` line -/

theorem cat_append (lv : List Char) :
    ("CATEGORIES:" : String) ++ (⟨lv⟩ : String) =
      ⟨'C' :: 'A' :: 'T' :: 'E' :: 'G' :: 'O' :: 'R' :: 'I' :: 'E' :: 'S' :: ':' :: lv⟩ := rfl

theorem cat_data :
    ("CATEGORIES:" : String).data = "CATEGORIES".data ++ ':' :: [] := rfl

theorem splitSub_cat (lv : List Char) :
    splitSub ("CATEGORIES".data ++ ':' :: lv) [':'] =
      "CATEGORIES".data :: splitSub lv [':'] :=
  splitSub_append_colon _ _ _ (by decide)

theorem pyIn_colon_cat (lv : List Char) :
    pyIn ":" ⟨"CATEGORIES".data ++ ':' :: lv⟩ = true := by
  show ((splitSub ("CATEGORIES".data ++ ':' :: lv) [':']).length != 1) = true
  rw [splitSub_cat]
  cases hX : splitSub lv [':'] with
  | nil => exact absurd hX (splitSub_ne_nil _ _)
  | cons x t => simp

theorem pySplit1_cat (lv : List Char) :
    pySplit1 ⟨"CATEGORIES".data ++ ':' :: lv⟩ ":" = ("CATEGORIES", ⟨lv⟩) := by
  unfold pySplit1
  rw [show (":" : String).data = [':'] from rfl]
  rw [show (⟨"CATEGORIES".data ++ ':' :: lv⟩ : String).data =
    "CATEGORIES".data ++ ':' :: lv from rfl]
  rw [splitSub_cat]
  cases hX : splitSub lv [':'] with
  | nil => exact absurd hX (splitSub_ne_nil _ _)
  | cons x t =>
    simp only []
    refine Prod.ext rfl ?_
    show (⟨joinSep [':'] (x :: t)⟩ : String) = ⟨lv⟩
    rw [← hX, joinSep_splitSub]

/-- Processing a stripped line of the exact shape `CATEGORIES:<value>`
inside an event block: the event's categories become the comma-split of the
value with each entry trimmed, in source order, and the current field key
becomes `categories`. -/
theorem step_categories (st : ParseState) (ev : Event) (rawLine v : String)
    (h1 : st.current = some ev)
    (h2 : pyStrip rawLine = "CATEGORIES:" ++ v) :
    stepLine st rawLine =
      some { st with
        current := some { ev with categories := (pySplit v ",").map pyStrip },
        field := some FieldKey.categories } := by
  obtain ⟨lv⟩ := v
  rw [cat_append] at h2
  simp only [stepLine, stepStripped, h2, h1]
  have hne : ¬((⟨'C' :: 'A' :: 'T' :: 'E' :: 'G' :: 'O' :: 'R' :: 'I' :: 'E' ::
      'S' :: ':' :: lv⟩ : String) = "") := by
    intro hc
    have := congrArg String.data hc
    simp at this
  have hv1 : pyStartsWith ⟨'C' :: 'A' :: 'T' :: 'E' :: 'G' :: 'O' :: 'R' ::
      'I' :: 'E' :: 'S' :: ':' :: lv⟩ "VERSION:" = false := rfl
  have hv2 : pyStartsWith ⟨'C' :: 'A' :: 'T' :: 'E' :: 'G' :: 'O' :: 'R' ::
      'I' :: 'E' :: 'S' :: ':' :: lv⟩ "X-WR-CALNAME:" = false := rfl
  have hv3 : pyStartsWith ⟨'C' :: 'A' :: 'T' :: 'E' :: 'G' :: 'O' :: 'R' ::
      'I' :: 'E' :: 'S' :: ':' :: lv⟩ "X-WR-CALDESC:" = false := rfl
  have hv4 : pyStartsWith ⟨'C' :: 'A' :: 'T' :: 'E' :: 'G' :: 'O' :: 'R' ::
      'I' :: 'E' :: 'S' :: ':' :: lv⟩ "METHOD:" = false := rfl
  have hv5 : pyStartsWith ⟨'C' :: 'A' :: 'T' :: 'E' :: 'G' :: 'O' :: 'R' ::
      'I' :: 'E' :: 'S' :: ':' :: lv⟩ "CALSCALE:" = false := rfl
  have hv6 : pyStartsWith ⟨'C' :: 'A' :: 'T' :: 'E' :: 'G' :: 'O' :: 'R' ::
      'I' :: 'E' :: 'S' :: ':' :: lv⟩ "PRODID:" = false := rfl
  have hv7 : pyStartsWith ⟨'C' :: 'A' :: 'T' :: 'E' :: 'G' :: 'O' :: 'R' ::
      'I' :: 'E' :: 'S' :: ':' :: lv⟩ "X-WR-TIMEZONE:" = false := rfl
  have hv8 : pyStartsWith ⟨'C' :: 'A' :: 'T' :: 'E' :: 'G' :: 'O' :: 'R' ::
      'I' :: 'E' :: 'S' :: ':' :: lv⟩ " " = false := rfl
  have hb : ¬((⟨'C' :: 'A' :: 'T' :: 'E' :: 'G' :: 'O' :: 'R' :: 'I' :: 'E' ::
      'S' :: ':' :: lv⟩ : String) = "BEGIN:VEVENT") := by
    intro hc
    have := congrArg String.data hc
    simp at this
  have he : (decide ((⟨'C' :: 'A' :: 'T' :: 'E' :: 'G' :: 'O' :: 'R' :: 'I' ::
      'E' :: 'S' :: ':' :: lv⟩ : String) = "END:VEVENT")) = false := by
    rw [decide_eq_false_iff_not]
    intro hc
    have := congrArg String.data hc
    simp at this
  have hin : pyIn ":" ⟨'C' :: 'A' :: 'T' :: 'E' :: 'G' :: 'O' :: 'R' :: 'I' ::
      'E' :: 'S' :: ':' :: lv⟩ = true := pyIn_colon_cat lv
  have hsp : pySplit1 ⟨'C' :: 'A' :: 'T' :: 'E' :: 'G' :: 'O' :: 'R' :: 'I' ::
      'E' :: 'S' :: ':' :: lv⟩ ":" = ("CATEGORIES", ⟨lv⟩) := pySplit1_cat lv
  simp only [hne, hv1, hv2, hv3, hv4, hv5, hv6, hv7, hv8, hb, he, hin, hsp,
    if_false, Bool.false_eq_true, Bool.false_and, Option.isSome_some,
    Bool.and_true, Bool.and_false, if_true, if_false]
  simp only [setEventField]
  rfl

/-- C5: categories are preserved end-to-end.  (1) A `CATEGORIES:` line sets
the event's categories to the comma-split of its value, each entry trimmed,
in source order.  (2) The formatted documents are exactly the per-event
documents of the events whose categories avoid the exclusion set, in source
event order (one document per retained event).  (3) An event whose
categories intersect the exclusion set is not among the retained events
(while remaining in the parsed events list it came from).  (4) A document's
categories are the event's categories, ASCII-folded elementwise — same
length, same order. -/
theorem categories_end_to_end :
    (∀ (st : ParseState) (ev : Event) (rawLine v : String),
        st.current = some ev → pyStrip rawLine = "CATEGORIES:" ++ v →
        stepLine st rawLine =
          some { st with
            current := some { ev with categories := (pySplit v ",").map pyStrip },
            field := some FieldKey.categories }) ∧
    (∀ (events : List Event) (name : String),
        (format_schedule_for_indexing events name).documents =
          (events.filter (fun e =>
            !(e.categories.any (fun c => EXCLUDED_CATEGORIES.contains c)))).map
            format_event_to_document) ∧
    (∀ (events : List Event) (e : Event),
        e.categories.any (fun c => EXCLUDED_CATEGORIES.contains c) = true →
        e ∉ events.filter (fun e =>
          !(e.categories.any (fun c => EXCLUDED_CATEGORIES.contains c)))) ∧
    (∀ e : Event, (format_event_to_document e).metadata.categories =
        e.categories.map to_ascii) := by
  refine ⟨step_categories, fun _ _ => rfl, ?_, fun _ => rfl⟩
  intro events e he hmem
  have h2 := (List.mem_filter.mp hmem).2
  rw [he] at h2
  simp at h2

set_option maxRecDepth 16384 in
/-- C5 witness: the theorem applied at concrete inputs. -/
theorem categories_end_to_end_witness :
    stepLine { current := some ({} : Event) } "CATEGORIES:AI + ML,Connectivity" =
      some { current := some ({ categories :=
               (pySplit "AI + ML,Connectivity" ",").map pyStrip } : Event),
             field := some FieldKey.categories } ∧
    ({ categories := ["REGISTRATION"] } : Event) ∉
      ([{ categories := ["REGISTRATION"] }] : List Event).filter (fun e =>
        !(e.categories.any (fun c => EXCLUDED_CATEGORIES.contains c))) :=
  ⟨categories_end_to_end.1 { current := some {} } {} "CATEGORIES:AI + ML,Connectivity"
      "AI + ML,Connectivity" rfl (by decide),
   categories_end_to_end.2.2.1 [{ categories := ["REGISTRATION"] }]
      { categories := ["REGISTRATION"] } (by decide)⟩

/-! ## C8: the single-entry speaker rules -/

theorem pyIn_comma_of_len (e : String) (n : Nat)
    (hl : ((pySplit e ",").map pyStrip).length = n) (hn : 2 ≤ n) :
    pyIn "," e = true := by
  unfold pyIn
  have hlen : (splitSub e.data (("," : String)).data).length = n := by
    simpa [pySplit, List.length_map] using hl
  rw [hlen]
  simp only [bne_iff_ne, ne_eq]
  omega

theorem parse_speaker_entry_of_comma (entry : String)
    (he : ¬(pyStrip entry = "")) (hin : pyIn "," (pyStrip entry) = true) :
    parse_speaker_entry entry =
      (if ((pySplit (pyStrip entry) ",").map pyStrip).length = 2 then
        some { name := ((pySplit (pyStrip entry) ",").map pyStrip).headD "",
               company := some
                 (((pySplit (pyStrip entry) ",").map pyStrip).getLast?.getD "") }
      else if COMPANY_SUFFIXES.contains
          (((pySplit (pyStrip entry) ",").map pyStrip).getLast?.getD "") then
        some { name := ((pySplit (pyStrip entry) ",").map pyStrip).headD "",
               title := if 3 < ((pySplit (pyStrip entry) ",").map pyStrip).length then
                   some (pyJoin ", "
                     ((((pySplit (pyStrip entry) ",").map pyStrip).drop 1).dropLast.dropLast))
                 else none,
               company := some
                 ((((pySplit (pyStrip entry) ",").map pyStrip).dropLast.getLast?.getD "") ++
                   ", " ++
                   (((pySplit (pyStrip entry) ",").map pyStrip).getLast?.getD "")) }
      else
        some { name := ((pySplit (pyStrip entry) ",").map pyStrip).headD "",
               title := if 2 < ((pySplit (pyStrip entry) ",").map pyStrip).length then
                   some (pyJoin ", "
                     ((((pySplit (pyStrip entry) ",").map pyStrip).drop 1).dropLast))
                 else none,
               company := some
                 (((pySplit (pyStrip entry) ",").map pyStrip).getLast?.getD "") }) := by
  unfold parse_speaker_entry
  rw [if_neg he, hin]
  rfl

/-- C8: `parse_speaker_entry` follows the claimed case split, stated over
the trimmed entry `e` and its comma-split trimmed `parts`: empty entry →
no speaker; no comma → name-only; two parts → `(name, company)` with no
title; three or more parts ending in a known suffix token → the suffix is
rejoined to the company, and a title exists only beyond three parts;
otherwise first part is the name, last is the company, middle parts become
the title only beyond two parts.  The two `extract_speakers` examples of
the claim close the statement. -/
theorem parse_speaker_entry_rules :
    (∀ entry : String, pyStrip entry = "" → parse_speaker_entry entry = none) ∧
    (∀ entry : String, pyStrip entry ≠ "" → pyIn "," (pyStrip entry) = false →
        parse_speaker_entry entry = some { name := pyStrip entry }) ∧
    (∀ entry : String,
        ((pySplit (pyStrip entry) ",").map pyStrip).length = 2 →
        parse_speaker_entry entry = some
          { name := ((pySplit (pyStrip entry) ",").map pyStrip).headD "",
            company := some
              (((pySplit (pyStrip entry) ",").map pyStrip).getLast?.getD "") }) ∧
    (∀ entry : String,
        3 ≤ ((pySplit (pyStrip entry) ",").map pyStrip).length →
        COMPANY_SUFFIXES.contains
            (((pySplit (pyStrip entry) ",").map pyStrip).getLast?.getD "") = true →
        parse_speaker_entry entry = some
          { name := ((pySplit (pyStrip entry) ",").map pyStrip).headD "",
            title := if 3 < ((pySplit (pyStrip entry) ",").map pyStrip).length then
                some (pyJoin ", "
                  ((((pySplit (pyStrip entry) ",").map pyStrip).drop 1).dropLast.dropLast))
              else none,
            company := some
              ((((pySplit (pyStrip entry) ",").map pyStrip).dropLast.getLast?.getD "") ++
                ", " ++
                (((pySplit (pyStrip entry) ",").map pyStrip).getLast?.getD "")) }) ∧
    (∀ entry : String,
        3 ≤ ((pySplit (pyStrip entry) ",").map pyStrip).length →
        COMPANY_SUFFIXES.contains
            (((pySplit (pyStrip entry) ",").map pyStrip).getLast?.getD "") = false →
        parse_speaker_entry entry = some
          { name := ((pySplit (pyStrip entry) ",").map pyStrip).headD "",
            title := if 2 < ((pySplit (pyStrip entry) ",").map pyStrip).length then
                some (pyJoin ", "
                  ((((pySplit (pyStrip entry) ",").map pyStrip).drop 1).dropLast))
              else none,
            company := some
              (((pySplit (pyStrip entry) ",").map pyStrip).getLast?.getD "") }) ∧
    extract_speakers "KAITO Deep Dive - Jane Doe, Acme, Inc." =
      [{ name := "Jane Doe", company := some "Acme, Inc." }] ∧
    extract_speakers "Talk with no dash" = [] := by
  refine ⟨?_, ?_, ?_, ?_, ?_, by decide, by decide⟩
  · intro entry h
    simp [parse_speaker_entry, h]
  · intro entry h1 h2
    simp [parse_speaker_entry, h1, h2]
  · intro entry hl
    have he : ¬(pyStrip entry = "") := by
      intro h0
      rw [h0] at hl
      exact absurd hl (by decide)
    have hin : pyIn "," (pyStrip entry) = true :=
      pyIn_comma_of_len _ 2 hl (by omega)
    simp [parse_speaker_entry, he, hin, hl]
  · intro entry hl hc
    have he : ¬(pyStrip entry = "") := by
      intro h0
      rw [h0] at hl
      exact absurd hl (by decide)
    have hin : pyIn "," (pyStrip entry) = true :=
      pyIn_comma_of_len _ _ rfl (by omega)
    have hne2 : ¬(((pySplit (pyStrip entry) ",").map pyStrip).length = 2) := by
      omega
    rw [parse_speaker_entry_of_comma entry he hin, if_neg hne2, hc, if_pos rfl]
  · intro entry hl hc
    have he : ¬(pyStrip entry = "") := by
      intro h0
      rw [h0] at hl
      exact absurd hl (by decide)
    have hin : pyIn "," (pyStrip entry) = true :=
      pyIn_comma_of_len _ _ rfl (by omega)
    have hne2 : ¬(((pySplit (pyStrip entry) ",").map pyStrip).length = 2) := by
      omega
    rw [parse_speaker_entry_of_comma entry he hin, if_neg hne2, hc,
      if_neg (by simp)]

set_option maxRecDepth 16384 in
/-- C8 witness: the theorem applied at a concrete four-part entry with a
suffix token. -/
theorem parse_speaker_entry_rules_witness :
    parse_speaker_entry "Jane Doe, Principal Engineer, Acme, Inc." = some
      { name := ((pySplit (pyStrip "Jane Doe, Principal Engineer, Acme, Inc.") ",").map
          pyStrip).headD "",
        title := if 3 < ((pySplit (pyStrip "Jane Doe, Principal Engineer, Acme, Inc.") ",").map
            pyStrip).length then
            some (pyJoin ", " ((((pySplit (pyStrip "Jane Doe, Principal Engineer, Acme, Inc.")
              ",").map pyStrip).drop 1).dropLast.dropLast))
          else none,
        company := some
          ((((pySplit (pyStrip "Jane Doe, Principal Engineer, Acme, Inc.") ",").map
              pyStrip).dropLast.getLast?.getD "") ++ ", " ++
            (((pySplit (pyStrip "Jane Doe, Principal Engineer, Acme, Inc.") ",").map
              pyStrip).getLast?.getD "")) } :=
  parse_speaker_entry_rules.2.2.2.1 "Jane Doe, Principal Engineer, Acme, Inc."
    (by decide) (by decide)

/-! ## C10: block markers and the events list -/

theorem setEventField_preserves (st : ParseState) (ev : Event) (f v : String)
    (st2 : ParseState) (h : setEventField st ev f v = some st2) :
    st2.events = st.events := by
  unfold setEventField at h
  repeat' split at h
  all_goals try (cases h; rfl)
  all_goals
    rw [Option.map_eq_some'] at h
    obtain ⟨a, _, hb⟩ := h
    rw [← hb]

/-- The events list only ever grows at an `END:VEVENT` line with an open
event, by appending that event finalized. -/
theorem stepLine_events_growth (st st2 : ParseState) (line : String)
    (h : stepLine st line = some st2) (hne : st2.events ≠ st.events) :
    ∃ ev, st.current = some ev ∧ pyStrip line = "END:VEVENT" ∧
      st2.events = st.events ++ [finalizeEvent ev] ∧ st2.current = none := by
  obtain ⟨m, evs, cur, fld⟩ := st
  unfold stepLine at h
  generalize hL : pyStrip line = L at h ⊢
  unfold stepStripped at h
  dsimp only at h hne ⊢
  by_cases h1 : L = ""
  · rw [if_pos h1] at h; cases h; exact absurd rfl hne
  rw [if_neg h1] at h
  by_cases h2 : pyStartsWith L "VERSION:" = true
  · rw [if_pos h2] at h; cases h; exact absurd rfl hne
  rw [if_neg h2] at h
  by_cases h3 : pyStartsWith L "X-WR-CALNAME:" = true
  · rw [if_pos h3] at h; cases h; exact absurd rfl hne
  rw [if_neg h3] at h
  by_cases h4 : pyStartsWith L "X-WR-CALDESC:" = true
  · rw [if_pos h4] at h; cases h; exact absurd rfl hne
  rw [if_neg h4] at h
  by_cases h5 : pyStartsWith L "METHOD:" = true
  · rw [if_pos h5] at h; cases h; exact absurd rfl hne
  rw [if_neg h5] at h
  by_cases h6 : pyStartsWith L "CALSCALE:" = true
  · rw [if_pos h6] at h; cases h; exact absurd rfl hne
  rw [if_neg h6] at h
  by_cases h7 : pyStartsWith L "PRODID:" = true
  · rw [if_pos h7] at h; cases h; exact absurd rfl hne
  rw [if_neg h7] at h
  by_cases h8 : pyStartsWith L "X-WR-TIMEZONE:" = true
  · rw [if_pos h8] at h; cases h; exact absurd rfl hne
  rw [if_neg h8] at h
  by_cases h9 : L = "BEGIN:VEVENT"
  · rw [if_pos h9] at h; cases h; exact absurd rfl hne
  rw [if_neg h9] at h
  cases cur with
  | none =>
    by_cases h10 : (decide (L = "END:VEVENT") &&
        Option.isSome (none : Option Event)) = true
    · simp at h10
    rw [if_neg h10] at h
    cases h
    exact absurd rfl hne
  | some ev =>
    dsimp only at h
    by_cases h10 : (decide (L = "END:VEVENT") &&
        Option.isSome (some ev)) = true
    · rw [if_pos h10] at h
      cases h
      simp only [Bool.and_eq_true, decide_eq_true_eq] at h10
      exact ⟨ev, rfl, h10.1, rfl, rfl⟩
    rw [if_neg h10] at h
    by_cases h11 : (pyStartsWith L " " && Option.isSome fld) = true
    · rw [if_pos h11] at h
      cases fld with
      | none => simp at h11
      | some k =>
        dsimp only at h
        rw [Option.map_eq_some'] at h
        obtain ⟨e2, _, hb⟩ := h
        rw [← hb] at hne
        exact absurd rfl hne
    rw [if_neg h11] at h
    by_cases h12 : pyIn ":" L = true
    · rw [if_pos h12] at h
      have := setEventField_preserves _ _ _ _ _ h
      exact absurd this hne
    rw [if_neg h12] at h
    cases h
    exact absurd rfl hne

/-- C10: a `BEGIN:VEVENT` read at any point — in particular while an event
is already open — replaces the current event with a fresh all-defaults
event and clears the field key, leaving the events list untouched, so the
partially built event is silently discarded; and the events list grows only
when an `END:VEVENT` line arrives with an open event, which appends exactly
that event, finalized. -/
theorem begin_discards_partial_event :
    (∀ st : ParseState, stepLine st "BEGIN:VEVENT" =
        some { st with current := some {}, field := none }) ∧
    (∀ (st st2 : ParseState) (line : String),
        stepLine st line = some st2 → st2.events ≠ st.events →
        ∃ ev, st.current = some ev ∧ pyStrip line = "END:VEVENT" ∧
          st2.events = st.events ++ [finalizeEvent ev] ∧ st2.current = none) :=
  ⟨fun _ => rfl, stepLine_events_growth⟩

/-- C10 witness: the theorem applied at a concrete state holding a partial
event. -/
theorem begin_discards_partial_event_witness :
    ∃ ev, ({ current := some { summary := "partial" } } : ParseState).current = some ev ∧
      pyStrip "END:VEVENT" = "END:VEVENT" ∧
      ({ events := [{ summary := "partial" }] } : ParseState).events =
        ({ current := some { summary := "partial" } } : ParseState).events ++
          [finalizeEvent ev] ∧
      ({ events := [{ summary := "partial" }] } : ParseState).current = none :=
  begin_discards_partial_event.2 { current := some { summary := "partial" } }
    { events := [{ summary := "partial" }] } "END:VEVENT" (by decide) (by decide)

/-! ## C4 amended: when the tokenizer is total -/

theorem setEventField_isSome (st : ParseState) (ev : Event) (f v : String)
    (hseq : f = "SEQUENCE" → (pyInt v).isSome = true)
    (hdt : (f = "DTSTAMP" ∨ f = "DTSTART" ∨ f = "DTEND") →
      (parse_ics_datetime v).isSome = true) :
    (setEventField st ev f v).isSome = true := by
  unfold setEventField
  repeat' split
  all_goals simp_all [Option.isSome_map]

theorem stepLine_isSome (st : ParseState) (raw : String)
    (hs : lineSafe raw = true) : (stepLine st raw).isSome = true := by
  have hsp := pyStrip_not_startsWith_space raw
  unfold lineSafe at hs
  unfold stepLine
  generalize hL : pyStrip raw = L at hs hsp
  dsimp only at hs
  rw [Bool.and_eq_true] at hs
  obtain ⟨hs1, hs2⟩ := hs
  have hseq : (pySplit1 L ":").1 = "SEQUENCE" → (pyInt (pySplit1 L ":").2).isSome = true := by
    intro hf
    rw [hf, if_pos rfl] at hs1
    exact hs1
  have hdt : ((pySplit1 L ":").1 = "DTSTAMP" ∨ (pySplit1 L ":").1 = "DTSTART" ∨
      (pySplit1 L ":").1 = "DTEND") →
      (parse_ics_datetime (pySplit1 L ":").2).isSome = true := by
    intro hor
    have hcond : (decide ((pySplit1 L ":").1 = "DTSTAMP") ||
        decide ((pySplit1 L ":").1 = "DTSTART") ||
        decide ((pySplit1 L ":").1 = "DTEND")) = true := by
      rcases hor with h | h | h <;> simp [h]
    rw [if_pos hcond] at hs2
    exact hs2
  obtain ⟨m, evs, cur, fld⟩ := st
  unfold stepStripped
  dsimp only
  by_cases h1 : L = ""
  · rw [if_pos h1]; rfl
  rw [if_neg h1]
  by_cases h2 : pyStartsWith L "VERSION:" = true
  · rw [if_pos h2]; rfl
  rw [if_neg h2]
  by_cases h3 : pyStartsWith L "X-WR-CALNAME:" = true
  · rw [if_pos h3]; rfl
  rw [if_neg h3]
  by_cases h4 : pyStartsWith L "X-WR-CALDESC:" = true
  · rw [if_pos h4]; rfl
  rw [if_neg h4]
  by_cases h5 : pyStartsWith L "METHOD:" = true
  · rw [if_pos h5]; rfl
  rw [if_neg h5]
  by_cases h6 : pyStartsWith L "CALSCALE:" = true
  · rw [if_pos h6]; rfl
  rw [if_neg h6]
  by_cases h7 : pyStartsWith L "PRODID:" = true
  · rw [if_pos h7]; rfl
  rw [if_neg h7]
  by_cases h8 : pyStartsWith L "X-WR-TIMEZONE:" = true
  · rw [if_pos h8]; rfl
  rw [if_neg h8]
  by_cases h9 : L = "BEGIN:VEVENT"
  · rw [if_pos h9]; rfl
  rw [if_neg h9]
  cases cur with
  | none =>
    by_cases h10 : (decide (L = "END:VEVENT") &&
        Option.isSome (none : Option Event)) = true
    · simp at h10
    rw [if_neg h10]
    rfl
  | some ev =>
    dsimp only
    by_cases h10 : (decide (L = "END:VEVENT") && Option.isSome (some ev)) = true
    · rw [if_pos h10]; rfl
    rw [if_neg h10]
    by_cases h11 : (pyStartsWith L " " && Option.isSome fld) = true
    · rw [Bool.and_eq_true] at h11
      rw [hsp] at h11
      simp at h11
    rw [if_neg h11]
    by_cases h12 : pyIn ":" L = true
    · rw [if_pos h12]
      exact setEventField_isSome _ _ _ _ hseq hdt
    rw [if_neg h12]
    rfl

theorem foldlM_stepLine_isSome (lines : List String) :
    ∀ st : ParseState, (∀ raw ∈ lines, lineSafe raw = true) →
      (lines.foldlM stepLine st).isSome = true := by
  induction lines with
  | nil => intro st _; rfl
  | cons l ls ih =>
    intro st h
    rw [List.foldlM_cons]
    have h1 := stepLine_isSome st l (h l (by simp))
    cases hsl : stepLine st l with
    | none => rw [hsl] at h1; simp at h1
    | some st2 =>
      simp only [Option.bind_eq_bind, Option.some_bind]
      exact ih st2 (fun raw hr => h raw (by simp [hr]))

/-- C4 amended: the tokenizer completes without raising on every input
whose lines are exception-safe — a `SEQUENCE` field carries an integer
literal, a datetime field avoids the `astimezone` overflow corner — and
lines of unrecognized shape (an unrecognized field name, a stray unmatched
`END:VEVENT`) are ignored silently, leaving the state unchanged. -/
theorem lenient_parse_amended :
    (∀ content : String,
        (∀ raw ∈ pySplit content "\n", lineSafe raw = true) →
        (parse_ics_to_json content).isSome = true) ∧
    (∀ st : ParseState, stepLine st "FOO:bar" = some st) ∧
    (∀ st : ParseState, st.current = none → stepLine st "END:VEVENT" = some st) := by
  refine ⟨?_, ?_, ?_⟩
  · intro content h
    have hfold := foldlM_stepLine_isSome (pySplit content "\n") {} h
    unfold parse_ics_to_json
    cases hf : List.foldlM stepLine ({} : ParseState) (pySplit content "\n") with
    | none => rw [hf] at hfold; simp at hfold
    | some stF => rfl
  · intro st
    obtain ⟨m, evs, cur, fld⟩ := st
    cases cur <;> rfl
  · intro st h
    obtain ⟨m, evs, cur, fld⟩ := st
    dsimp only at h
    subst h
    rfl

/-- C4 amended witness: the theorem applied to a concrete well-formed
calendar text. -/
theorem lenient_parse_amended_witness :
    (parse_ics_to_json "VERSION:2.0\nBEGIN:VEVENT\nSEQUENCE:7\nEND:VEVENT").isSome
      = true ∧
    stepLine { current := some ({} : Event) } "FOO:bar" =
      some { current := some ({} : Event) } ∧
    stepLine ({} : ParseState) "END:VEVENT" = some ({} : ParseState) :=
  ⟨lenient_parse_amended.1 _ (by decide),
   lenient_parse_amended.2.1 { current := some {} },
   lenient_parse_amended.2.2 {} rfl⟩

/-! ## C7 amended: the datetime parser -/

theorem daysFromCivil_pos (y m d : Int) (hy : 2007 ≤ y) (_hm : 1 ≤ m)
    (hd : 1 ≤ d) : 0 ≤ daysFromCivil y m d := by
  simp only [daysFromCivil]
  split <;> omega

theorem easternOffset_cases (t : Int) :
    easternOffset t = -14400 ∨ easternOffset t = -18000 := by
  simp only [easternOffset]
  split
  · exact Or.inl rfl
  · exact Or.inr rfl

theorem toSecs_lb (dt : DT) (hy : 2007 ≤ dt.y) (hm : 1 ≤ dt.m)
    (hd : 1 ≤ dt.d) : 0 ≤ toSecs dt := by
  unfold toSecs
  have h := daysFromCivil_pos dt.y dt.m dt.d (by exact_mod_cast hy)
    (by exact_mod_cast hm) (by exact_mod_cast hd)
  omega

theorem minDatetimeSecs_eq : minDatetimeSecs = -62135596800 := by decide

/-- C7 amended: the datetime parser returns the raw input unchanged on any
string the fixed-format match rejects and whenever the matched values fail
the calendar-validity check, and for every matched valid timestamp in the
calendar's era (year ≥ 2007) it returns the instant converted to Eastern
local civil time rendered as ISO-8601 with explicit offset — but it is not
exception-free: an `OverflowError` escapes when the conversion underflows
the minimum representable datetime (see the counterexample).  The two
concrete timestamps show the seasonal offsets resolved automatically. -/
theorem parse_ics_datetime_amended :
    (∀ s : String, matchFormatICS s = none → parse_ics_datetime s = some s) ∧
    (∀ (s : String) (dt : DT), matchFormatICS s = some dt → validDT dt = false →
        parse_ics_datetime s = some s) ∧
    (∀ (s : String) (dt : DT), matchFormatICS s = some dt → validDT dt = true →
        2007 ≤ dt.y →
        parse_ics_datetime s =
          some (isoRender (toSecs dt + easternOffset (toSecs dt))
            (easternOffset (toSecs dt)))) ∧
    parse_ics_datetime "20251118T140000Z" = some "2025-11-18T09:00:00-05:00" ∧
    parse_ics_datetime "20250618T140000Z" = some "2025-06-18T10:00:00-04:00" := by
  refine ⟨?_, ?_, ?_, by decide, by decide⟩
  · intro s h
    unfold parse_ics_datetime
    by_cases hs : s = ""
    · rw [if_pos hs, hs]
    · rw [if_neg hs, h]
  · intro s dt h hv
    have hs : ¬s = "" := by
      intro h0
      have hnone : matchFormatICS "" = none := rfl
      rw [h0, hnone] at h
      exact Option.noConfusion h
    unfold parse_ics_datetime
    rw [if_neg hs, h]
    dsimp only
    rw [hv, if_neg (by simp)]
  · intro s dt h hv hy
    have hs : ¬s = "" := by
      intro h0
      have hnone : matchFormatICS "" = none := rfl
      rw [h0, hnone] at h
      exact Option.noConfusion h
    have hv' := hv
    simp only [validDT, Bool.and_eq_true, decide_eq_true_eq] at hv'
    obtain ⟨⟨⟨⟨⟨⟨⟨⟨hy1, hy2⟩, hm1⟩, hm2⟩, hd1⟩, hd2⟩, hhh⟩, hmi⟩, hss⟩ := hv'
    have h0 : 0 ≤ toSecs dt := toSecs_lb dt hy hm1 hd1
    have hoff : -18000 ≤ easternOffset (toSecs dt) := by
      rcases easternOffset_cases (toSecs dt) with he | he <;> omega
    have hmin := minDatetimeSecs_eq
    unfold parse_ics_datetime
    rw [if_neg hs, h]
    dsimp only
    rw [if_pos hv]
    rw [if_neg (by omega : ¬(toSecs dt + easternOffset (toSecs dt) < minDatetimeSecs))]

/-- C7 amended witness: the theorem's conversion clause applied at the
claim's concrete November timestamp. -/
theorem parse_ics_datetime_amended_witness :
    parse_ics_datetime "20251118T140000Z" =
      some (isoRender
        (toSecs ⟨2025, 11, 18, 14, 0, 0⟩ +
          easternOffset (toSecs ⟨2025, 11, 18, 14, 0, 0⟩))
        (easternOffset (toSecs ⟨2025, 11, 18, 14, 0, 0⟩))) :=
  parse_ics_datetime_amended.2.2.1 "20251118T140000Z" ⟨2025, 11, 18, 14, 0, 0⟩
    (by decide) (by decide) (by decide)

/-! ## C6 amended: `parse_location` equals its specification -/

theorem firstCityIdx_cons (c : Char) (rest : List Char) :
    firstCityIdx (c :: rest) =
      if cityTokenAt (c :: rest) 0 = true then some 0
      else (firstCityIdx rest).map Nat.succ := by
  unfold firstCityIdx
  rw [List.length_cons, List.range_succ_eq_map]
  by_cases h0 : cityTokenAt (c :: rest) 0 = true
  · rw [if_pos h0, List.find?_cons_of_pos _ h0]
  · rw [if_neg h0, List.find?_cons_of_neg _ h0, List.find?_map]
    rfl

theorem cityCut_eq_spec (l : List Char) : cityCut l = cityStripSpec l := by
  induction l with
  | nil => rfl
  | cons c rest ih =>
    unfold cityCut cityStripSpec
    rw [firstCityIdx_cons]
    by_cases h0 : cityTokenAt (c :: rest) 0 = true
    · rw [if_pos h0]
      have hcond : (c = ',' &&
          "Atlanta".data.isPrefixOf (rest.dropWhile isPySpace)) = true := h0
      rw [if_pos hcond]
      rfl
    · have hcond : ¬((c = ',' &&
          "Atlanta".data.isPrefixOf (rest.dropWhile isPySpace)) = true) := h0
      rw [if_neg h0, if_neg hcond, ih]
      unfold cityStripSpec
      cases hf : firstCityIdx rest with
      | none => rfl
      | some i => rfl

theorem dropTrailing_cons (a : Char) (l : List Char) :
    dropTrailing (a :: l) =
      if (decide (dropTrailing l = []) && isPySpace a) = true then []
      else a :: dropTrailing l := rfl

theorem dropTrailing_ne_nil : ∀ (l : List Char) (c : Char), l.getLast? = some c →
    isPySpace c = false → dropTrailing l ≠ [] := by
  intro l
  induction l with
  | nil => intro c h _; simp at h
  | cons a rest ih =>
    intro c h hc
    cases rest with
    | nil =>
      simp at h
      subst h
      rw [dropTrailing_cons]
      rw [if_neg (by simp [dropTrailing, hc])]
      simp
    | cons b bs =>
      rw [List.getLast?_cons_cons] at h
      have hne := ih c h hc
      rw [dropTrailing_cons]
      rw [if_neg (by simp [hne])]
      simp

theorem pyStripL_ne_nil (l : List Char) (c : Char) (h : l.getLast? = some c)
    (hc : isPySpace c = false) : pyStripL l ≠ [] := by
  unfold pyStripL
  have hmem : c ∈ l := List.mem_of_getLast?_eq_some h
  have hne : l.dropWhile isPySpace ≠ [] := by
    intro h0
    rw [List.dropWhile_eq_nil_iff] at h0
    rw [h0 c hmem] at hc
    exact Bool.noConfusion hc
  have hlast : (l.dropWhile isPySpace).getLast? = some c := by
    have happ := List.getLast?_append_of_ne_nil (l.takeWhile isPySpace) hne
    rw [List.takeWhile_append_dropWhile, h] at happ
    exact happ.symm
  exact dropTrailing_ne_nil _ c hlast hc

theorem toNat_ofNat_valid (n : Nat) (h : n.isValidChar) :
    (Char.ofNat n).toNat = n := by
  unfold Char.ofNat
  rw [dif_pos h]
  rfl

theorem lowerChar_eq_space (c : Char) (h : lowerChar c = ' ') : c = ' ' := by
  unfold lowerChar at h
  split at h
  · rename_i hr
    exfalso
    simp only [Bool.and_eq_true, decide_eq_true_eq] at hr
    have hv : (c.toNat + 32).isValidChar := Or.inl (by omega)
    have h2 := congrArg Char.toNat h
    rw [toNat_ofNat_valid _ hv] at h2
    have h32 : (' ' : Char).toNat = 32 := rfl
    rw [h32] at h2
    omega
  · exact h

/-- If a string has no trailing whitespace and its lower-casing starts with
a prefix ending in a space, then dropping the prefix and stripping leaves a
non-empty string: the heart of why `parse_location` never assigns an empty
`building` or `level`. -/
theorem strip_drop_ne_empty (p : String) (pre : List Char) (k : Nat)
    (hk : pre.length = k) (hlast : pre.getLast? = some ' ')
    (hfix : ∀ c, p.data.getLast? = some c → isPySpace c = false)
    (hpre : pre.isPrefixOf (p.data.map lowerChar) = true) :
    ¬(pyStrip (pyDrop p k) = "") := by
  have hp := List.isPrefixOf_iff_prefix.mp hpre
  obtain ⟨t, ht⟩ := hp
  have hlen : p.data.length = k + t.length := by
    have hl := congrArg List.length ht
    rw [List.length_append, List.length_map, hk] at hl
    omega
  cases htn : t with
  | nil =>
    exfalso
    subst htn
    rw [List.append_nil] at ht
    have h1 : (p.data.map lowerChar).getLast? = some ' ' := by
      rw [← ht]; exact hlast
    rw [List.getLast?_map] at h1
    cases hc : p.data.getLast? with
    | none => rw [hc] at h1; exact Option.noConfusion h1
    | some c =>
      rw [hc] at h1
      have h2 : lowerChar c = ' ' := by
        simpa using h1
      have h3 := lowerChar_eq_space c h2
      have h4 := hfix c hc
      rw [h3] at h4
      simp [isPySpace] at h4
  | cons t0 ts =>
    have hdropne : p.data.drop k ≠ [] := by
      intro h0
      have hdl := congrArg List.length h0
      rw [List.length_drop, hlen, htn] at hdl
      simp at hdl
    cases hc : p.data.getLast? with
    | none =>
      exfalso
      rw [List.getLast?_eq_none_iff] at hc
      rw [hc] at hdropne
      simp at hdropne
    | some c =>
      have hcf := hfix c hc
      have hlast2 : (p.data.drop k).getLast? = some c := by
        have happ := List.getLast?_append_of_ne_nil (p.data.take k) hdropne
        rw [List.take_append_drop, hc] at happ
        exact happ.symm
      intro h0
      have hdat : pyStripL (p.data.drop k) = [] := congrArg String.data h0
      exact pyStripL_ne_nil _ c hlast2 hcf hdat

/-- The fold of `locAssign` never stores an empty string in a field,
provided every segment is free of trailing whitespace. -/
theorem foldl_locAssign_inv (parts : List String)
    (hps : ∀ p ∈ parts, ∀ c, p.data.getLast? = some c → isPySpace c = false) :
    ∀ loc : Location,
      ((∀ s, loc.building = some s → ¬(s = "")) ∧
       (∀ s, loc.level = some s → ¬(s = "")) ∧
       (∀ s, loc.room = some s → ¬(s = ""))) →
      ((∀ s, (parts.foldl locAssign loc).building = some s → ¬(s = "")) ∧
       (∀ s, (parts.foldl locAssign loc).level = some s → ¬(s = "")) ∧
       (∀ s, (parts.foldl locAssign loc).room = some s → ¬(s = ""))) := by
  induction parts with
  | nil => intro loc h; exact h
  | cons p ps ih =>
    intro loc h
    rw [List.foldl_cons]
    refine ih (fun q hq => hps q (by simp [hq])) (locAssign loc p) ?_
    have hpfix := hps p (by simp)
    unfold locAssign
    by_cases h1 : pyStartsWith (pyLower p) "building " = true
    · rw [if_pos h1]
      refine ⟨?_, h.2.1, h.2.2⟩
      intro s hs
      cases hs
      exact strip_drop_ne_empty p "building ".data 9 rfl rfl hpfix h1
    rw [if_neg h1]
    by_cases h2 : pyStartsWith (pyLower p) "level " = true
    · rw [if_pos h2]
      refine ⟨h.1, ?_, h.2.2⟩
      intro s hs
      cases hs
      exact strip_drop_ne_empty p "level ".data 6 rfl rfl hpfix h2
    rw [if_neg h2]
    by_cases h3 : p = ""
    · rw [if_neg (by simp [h3])]
      exact h
    · rw [if_pos (by simpa using h3)]
      refine ⟨h.1, h.2.1, ?_⟩
      intro s hs
      cases hs
      exact h3

theorem getLast?_dropTrailing : ∀ (l : List Char) (c : Char),
    (dropTrailing l).getLast? = some c → isPySpace c = false := by
  intro l
  induction l with
  | nil => intro c h; simp [dropTrailing] at h
  | cons a rest ih =>
    intro c h
    rw [dropTrailing_cons] at h
    by_cases hcond : (decide (dropTrailing rest = []) && isPySpace a) = true
    · rw [if_pos hcond] at h
      simp at h
    · rw [if_neg hcond] at h
      cases hr : dropTrailing rest with
      | nil =>
        rw [hr] at h
        simp at h
        subst h
        simp [hr] at hcond
        exact hcond
      | cons x xs =>
        rw [hr, List.getLast?_cons_cons, ← hr] at h
        exact ih c h

/-- The stripped line has no trailing whitespace. -/
theorem pyStrip_getLast_not_space (x : String) (c : Char)
    (h : (pyStrip x).data.getLast? = some c) : isPySpace c = false :=
  getLast?_dropTrailing _ c h

theorem final_check_eq (L : Location)
    (hb : ∀ s, L.building = some s → ¬(s = ""))
    (hl : ∀ s, L.level = some s → ¬(s = ""))
    (hr : ∀ s, L.room = some s → ¬(s = "")) :
    (if pyTruthy L.building || pyTruthy L.level || pyTruthy L.room then some L
     else none) =
    (if L.building = none ∧ L.level = none ∧ L.room = none then none
     else some L) := by
  obtain ⟨b, lv, r⟩ := L
  cases b <;> cases lv <;> cases r <;> simp_all [pyTruthy]

set_option maxRecDepth 16384 in
/-- The code's `parse_location` equals the amended claim's wording: cut at
the first occurrence of the venue-city token (comma, optional whitespace,
`Atlanta`), split on `|`, trim, assign case-insensitively by prefix with
the last segment winning, and return `None` exactly when none of the three
fields were set. -/
theorem parse_location_eq_spec (location : String) :
    parse_location location = parse_location_spec location := by
  by_cases h0 : location = ""
  · subst h0
    decide
  · unfold parse_location parse_location_spec
    rw [if_neg h0, cityCut_eq_spec]
    have hps : ∀ p ∈ ((pySplit (pyStrip (⟨cityStripSpec location.data⟩ : String))
        "|").map pyStrip), ∀ c, p.data.getLast? = some c → isPySpace c = false := by
      intro p hp c hc
      obtain ⟨x, _, hx⟩ := List.mem_map.mp hp
      rw [← hx] at hc
      exact pyStrip_getLast_not_space x c hc
    have hinv := foldl_locAssign_inv _ hps {}
      ⟨fun _ hs => Option.noConfusion hs, fun _ hs => Option.noConfusion hs,
       fun _ hs => Option.noConfusion hs⟩
    exact final_check_eq _ hinv.1 hinv.2.1 hinv.2.2

set_option maxRecDepth 16384 in
/-- C6 amended: `parse_location` strips everything from the first
occurrence of the venue-city token — a comma followed by *optional*
whitespace and `Atlanta`, not the literal `", Atlanta"` — splits the
remainder on `|`, trims each segment, assigns segments case-insensitively
by prefix (`Building ` → building, `Level ` → level, any other non-empty
segment → room, last winning), and returns `None` exactly when none of the
three fields were set; the claim's concrete example evaluates as stated. -/
theorem parse_location_amended :
    (∀ location : String, parse_location location = parse_location_spec location) ∧
    parse_location "Building B | Level 4 | B406b-407, Atlanta, GA, USA" =
      some { building := some "B", level := some "4", room := some "B406b-407" } :=
  ⟨parse_location_eq_spec, by decide⟩

/-! ## C3: which fields the ASCII normalizer reaches -/

/-- C3 counterexample: `format_event_to_document` hands the location parser
the raw location, not its ASCII-folded form.  For an event whose location is
the single non-ASCII character `×`, the document's location is
`{room := "×"}`, while the ASCII-folded location is empty and would parse to
no location at all. -/
theorem location_not_ascii_folded_cex :
    (format_event_to_document { location := "×" }).metadata.location =
        some { room := some "×" } ∧
    to_ascii ("×" : String) = "" ∧
    parse_location (to_ascii ("×" : String)) = none ∧
    (format_event_to_document { location := "×" }).metadata.location ≠
      parse_location (to_ascii ({ location := "×" } : Event).location) := by
  refine ⟨by decide, by decide, by decide, by decide⟩

/-- C3 amended: the ASCII normalizer is applied to the summary, the
description and each category string before downstream parsing (and its
output is ASCII-only), but the location parser receives the raw location
string unchanged. -/
theorem ascii_folding_amended :
    (∀ ev : Event, (format_event_to_document ev).metadata.location =
        parse_location ev.location) ∧
    (∀ ev : Event, (format_event_to_document ev).metadata.description =
        to_ascii ev.description) ∧
    (∀ ev : Event, (format_event_to_document ev).metadata.categories =
        ev.categories.map to_ascii) ∧
    (∀ ev : Event, (format_event_to_document ev).metadata.speakers =
        (if (extract_speakers (to_ascii ev.summary)).isEmpty then none
         else some (extract_speakers (to_ascii ev.summary)))) ∧
    (∀ s : String, ∀ c ∈ (to_ascii s).data, c.toNat < 128) :=
  ⟨fun _ => rfl, fun _ => rfl, fun _ => rfl, fun _ => rfl, to_ascii_mem_ascii⟩

/-! ## C4: totality of the tokenizer -/

/-- C4 counterexample: a recognized `SEQUENCE` field whose value is not an
integer literal makes `int(value)` raise an uncaught `ValueError`:
`parse_ics_to_json` does not return a calendar for this input. -/
theorem sequence_line_raises_cex :
    parse_ics_to_json "BEGIN:VEVENT\nSEQUENCE:abc" = none := by decide

/-! ## C6: the venue-city token -/

/-- C6 counterexample: the code strips at the regular expression
`,\s*Atlanta` — a comma followed by *optional* whitespace — so
`"B406,Atlanta, GA"` is cut down to room `B406`, while the claim's literal
token `", Atlanta"` does not occur in that string and would leave the whole
string as the room. -/
theorem city_token_literal_cex :
    parse_location "B406,Atlanta, GA" = some { room := some "B406" } ∧
    parse_location_claimed "B406,Atlanta, GA" =
      some { room := some "B406,Atlanta, GA" } ∧
    parse_location "B406,Atlanta, GA" ≠ parse_location_claimed "B406,Atlanta, GA" := by
  refine ⟨by decide, by decide, by decide⟩

/-! ## C7: the datetime parser -/

/-- C7 counterexample: the datetime parser *can* raise.  The string below
matches the fixed format and builds the valid UTC instant
`0001-01-01T00:30:00`, but converting it to Eastern time subtracts the
negative offset past the minimum representable datetime: `astimezone`
raises `OverflowError`, which the `except ValueError` handler does not
catch. -/
theorem datetime_overflow_cex :
    parse_ics_datetime "00010101T003000Z" = none := by decide

end Sched
